import Mathlib

/-!
Shallow embedding of the binary buddy allocator in src/src/lab.c.

Addresses are modelled as byte offsets (Nat) relative to the arena base
(pool->base); machine size_t arithmetic is modelled as Nat with explicit
reduction modulo 2^64 where the C code can wrap.  The mmap'd arena is
modelled by two association lists: one mapping offsets to block headers
(struct avail values the allocator itself has written; an absent entry
reads as zero-filled memory, matching MAP_ANONYMOUS zero-initialisation),
and one mapping offsets to payload bytes.  The per-order circular
doubly-linked avail lists of the C code are modelled as one Lean list of
block offsets per order, head first; the sentinel node of order i is the
list cell itself, so a self-linked sentinel is the empty list, insertion
after the sentinel is cons, and unlinking a node is erase.
-/

/-- Modelled from the spec: lab.h is not under src/, only lab.c is.  The
spec's "minimum order (smallest block the allocator will ever hand out)";
value taken as 6 for the standard lab header. -/
def SMALLEST_K : Nat := 6

/-- Modelled from the spec: lab.h is missing; the minimum arena order used
by buddy_init's clamping rules. -/
def MIN_K : Nat := 20

/-- Modelled from the spec: lab.h is missing; the "maximum supported order"
bounding the order table (freeLists array has MAX_K entries). -/
def MAX_K : Nat := 48

/-- Modelled from the spec: lab.h is missing; the order giving the
"built-in default capacity" selected by a zero size argument to init. -/
def DEFAULT_K : Nat := 30

/-- Modelled from the spec: lab.h is missing; the Free state tag. -/
def BLOCK_AVAIL : Nat := 1

/-- Modelled from the spec: lab.h is missing; the Reserved state tag.
Its value is 0, so zero-initialised (never-written) memory reads as a
Reserved header of order 0. -/
def BLOCK_RESERVED : Nat := 0

/-- Modelled from the spec: lab.h is missing; the Unused state tag used
only for the per-order sentinel nodes. -/
def BLOCK_UNUSED : Nat := 3

/-- Modelled from the spec: sizeof(struct avail), the fixed Block Header
cost (two unsigned short fields plus two 8-byte pointers, padded: 24
bytes on LP64). -/
def headerSize : Nat := 24

/-- One more than the largest value of the C size_t type; size_t
arithmetic wraps modulo this. -/
def UINT64 : Nat := 2 ^ 64

/-- The block header (struct avail of lab.h, modelled from the spec):
state tag and order.  The next/prev links of the C struct are represented
by the position of the block's offset inside its order's free list. -/
structure Avail where
  tag : Nat
  kval : Nat
deriving DecidableEq, Repr

/-- Write a header at an offset of the arena (newer entries shadow older
ones, like a store). -/
def hwrite (m : List (Nat × Avail)) (off : Nat) (h : Avail) : List (Nat × Avail) :=
  (off, h) :: m

/-- Read the header at an offset of the arena.  An offset that was never
written reads as zero bytes (mmap zero-fills), i.e. tag BLOCK_RESERVED
(= 0) and kval 0. -/
def hread (m : List (Nat × Avail)) (off : Nat) : Avail :=
  (m.lookup off).getD ⟨BLOCK_RESERVED, 0⟩

/-- Write one payload byte. -/
def bwrite (d : List (Nat × Nat)) (off v : Nat) : List (Nat × Nat) :=
  (off, v) :: d

/-- Read one payload byte; never-written bytes read as 0. -/
def bread (d : List (Nat × Nat)) (off : Nat) : Nat :=
  (d.lookup off).getD 0

/-- The loop `while (temp >>= 1) k++;` of btok: shift right, and count
the shifts that leave a nonzero value.  The first argument is fuel;
64 shifts always exhaust a size_t value, so btok passes 64. -/
def shiftLoop : Nat → Nat → Nat → Nat
  | 0, _, k => k
  | fuel + 1, temp, k =>
    let t := temp / 2
    if t = 0 then k else shiftLoop fuel t (k + 1)

/-- btok of lab.c: bytes-to-order conversion.  A zero size returns 0
immediately; otherwise the header size is added (size_t addition, may
wrap), one is subtracted (size_t subtraction, may wrap), the position of
the highest set bit is found by shifting, one is added, and the result is
clamped below by SMALLEST_K and above by MAX_K - 1. -/
def btok (bytes : Nat) : Nat :=
  if bytes = 0 then 0
  else
    let bytes2 := (bytes + headerSize) % UINT64
    let temp := (bytes2 + (UINT64 - 1)) % UINT64
    let k := shiftLoop 64 temp 0 + 1
    let k2 := if k < SMALLEST_K then SMALLEST_K else k
    if MAX_K ≤ k2 then MAX_K - 1 else k2

/-- The memory pool (struct buddy_pool of lab.h, modelled from the spec):
kval_m is the top order, numbytes the arena size, base records whether the
arena is backed by memory (false models a NULL base pointer).  avail
models the per-order circular free lists (entry i is the list of free
block offsets anchored at sentinel avail[i], head first); mem and data
model the header bytes and the payload bytes of the mmap'd region. -/
structure BuddyPool where
  kval_m : Nat
  numbytes : Nat
  base : Bool
  avail : List (List Nat)
  mem : List (Nat × Avail)
  data : List (Nat × Nat)
deriving DecidableEq, Repr

/-- buddy_calc of lab.c: the buddy of a block is found by XOR-ing the
block's arena-relative offset with 1 shifted left by the order recorded
in the block's header. -/
def buddy_calc (mem : List (Nat × Avail)) (block : Nat) : Nat :=
  block ^^^ 2 ^ (hread mem block).kval

/-- The avail-list scan of buddy_malloc: the first order i in
[k, pool.kval_m] whose free list is non-empty. -/
def findAvail (pool : BuddyPool) (k : Nat) : Option Nat :=
  (List.range' k (pool.kval_m + 1 - k)).find? fun i => !(pool.avail.getD i []).isEmpty

/-- The split loop of buddy_malloc (`while (i > k)`), structurally
recursive on i.  Each step halves the block: the upper half at offset
block + 2^(i-1) gets a Free header of order i-1 and is pushed onto the
head of the order-(i-1) free list; the lower half keeps the block
identity. -/
def splitLoop (k block : Nat) :
    List (Nat × Avail) → List (List Nat) → Nat → List (Nat × Avail) × List (List Nat)
  | mem, avail, 0 => (mem, avail)
  | mem, avail, i + 1 =>
    if k < i + 1 then
      let buddy := block + 2 ^ i
      splitLoop k block (hwrite mem buddy ⟨BLOCK_AVAIL, i⟩)
        (avail.set i (buddy :: avail.getD i [])) i
    else (mem, avail)

/-- Body of buddy_malloc after the order k has been computed by btok:
fail with NULL if k exceeds kval_m, scan for the first non-empty list at
order ≥ k, unlink its head block, split down to order k, stamp the block
Reserved with kval k, and return the payload offset block + headerSize. -/
def malloc_go (pool : BuddyPool) (k : Nat) : Option Nat × BuddyPool :=
  if pool.kval_m < k then (none, pool)
  else
    match findAvail pool k with
    | none => (none, pool)
    | some i =>
      match pool.avail.getD i [] with
      | [] => (none, pool)
      | block :: rest =>
        let r := splitLoop k block pool.mem (pool.avail.set i rest) i
        (some (block + headerSize),
          { pool with mem := hwrite r.1 block ⟨BLOCK_RESERVED, k⟩, avail := r.2 })

/-- buddy_malloc of lab.c on a live pool: a zero size returns NULL at
once, otherwise the order is computed by btok and malloc_go runs. -/
def buddy_malloc_core (pool : BuddyPool) (size : Nat) : Option Nat × BuddyPool :=
  if size = 0 then (none, pool) else malloc_go pool (btok size)

/-- buddy_malloc of lab.c including the NULL-pool check of the public
interface: a NULL pool yields NULL and no arena exists to change. -/
def buddy_malloc (pool : Option BuddyPool) (size : Nat) : Option Nat × Option BuddyPool :=
  match pool with
  | none => (none, none)
  | some p =>
    let r := buddy_malloc_core p size
    (r.1, some r.2)

/-- The coalescing loop of buddy_free, structurally recursive on fuel
(buddy_free passes kval_m - k, which the loop consumes exactly: k
increases by one per iteration and the loop stops at k = kval_m).
While k < m: compute the buddy via buddy_calc, stop if its header is not
Free of order k; otherwise unlink the buddy from the order-k list, let
the lower-addressed of block and buddy survive, bump its recorded order
to k+1 (its tag byte is rewritten with its current value), and continue.
Returns (mem, avail, block, k) at the stop point. -/
def coalesceLoop :
    Nat → List (Nat × Avail) → List (List Nat) → Nat → Nat → Nat →
      List (Nat × Avail) × List (List Nat) × Nat × Nat
  | 0, mem, avail, block, k, _ => (mem, avail, block, k)
  | fuel + 1, mem, avail, block, k, m =>
    if k < m then
      let buddy := buddy_calc mem block
      let bh := hread mem buddy
      if bh.tag = BLOCK_AVAIL ∧ bh.kval = k then
        let avail2 := avail.set k ((avail.getD k []).erase buddy)
        let block2 := min block buddy
        let mem2 := hwrite mem block2 ⟨(hread mem block2).tag, k + 1⟩
        coalesceLoop fuel mem2 avail2 block2 (k + 1) m
      else (mem, avail, block, k)
    else (mem, avail, block, k)

/-- buddy_free of lab.c on a live pool and a non-NULL payload offset:
recover the header at ptr - headerSize, read its order k, set its tag to
Free, run the coalescing loop, and push the resulting block onto the
head of the free list for its final order. -/
def buddy_free_core (pool : BuddyPool) (ptr : Nat) : BuddyPool :=
  let block := ptr - headerSize
  let k := (hread pool.mem block).kval
  let mem1 := hwrite pool.mem block ⟨BLOCK_AVAIL, k⟩
  let r := coalesceLoop (pool.kval_m - k) mem1 pool.avail block k pool.kval_m
  { pool with
    mem := r.1
    avail := r.2.1.set r.2.2.2 (r.2.2.1 :: r.2.1.getD r.2.2.2 []) }

/-- buddy_free of lab.c including the NULL checks of the public
interface: a NULL pool or NULL ptr returns immediately, changing
nothing. -/
def buddy_free (pool : Option BuddyPool) (ptr : Option Nat) : Option BuddyPool :=
  match pool, ptr with
  | none, _ => none
  | some p, none => some p
  | some p, some x => some (buddy_free_core p x)

/-- The byte loop of memcpy in buddy_realloc: copy n bytes from offset
src to offset dst.  Source bytes are read from the pre-copy store d,
matching memcpy's non-overlap contract. -/
def memcpyBytes (d : List (Nat × Nat)) (dst src : Nat) : Nat → List (Nat × Nat)
  | 0 => d
  | n + 1 => bwrite (memcpyBytes d dst src n) (dst + n) (bread d (src + n))

/-- buddy_realloc of lab.c on a live pool: a NULL ptr behaves as malloc;
a zero size frees and returns NULL; otherwise the old usable size is
2^kval - headerSize in size_t arithmetic (kval read from the header; the
shift is reduced mod 2^64 as the C shift wraps past the word size).  If
the new size still fits, the same pointer is returned unchanged;
otherwise a new block is allocated (failure leaves everything untouched
and returns NULL), old_size bytes are copied, and the old block is
freed. -/
def buddy_realloc_core (pool : BuddyPool) (ptr : Option Nat) (size : Nat) :
    Option Nat × BuddyPool :=
  match ptr with
  | none => buddy_malloc_core pool size
  | some p =>
    if size = 0 then (none, buddy_free_core pool p)
    else
      let block := p - headerSize
      let old_size := (2 ^ (hread pool.mem block).kval % UINT64 + (UINT64 - headerSize)) % UINT64
      if size ≤ old_size then (some p, pool)
      else
        let r := buddy_malloc_core pool size
        match r.1 with
        | none => (none, r.2)
        | some np =>
          let data2 := memcpyBytes r.2.data np p old_size
          (some np, buddy_free_core { r.2 with data := data2 } p)

/-- buddy_init of lab.c: compute kval_m from the requested size (0
selects DEFAULT_K; otherwise btok clamped into [MIN_K, MAX_K - 1]), set
numbytes = 2^kval_m, and reserve the arena (mmapFails models the mmap
result).  On failure the base sentinel is cleared and the rest of the
pool is left as it was.  On success the arena is fresh zeroed memory,
every free-list sentinel is self-linked (empty lists), and one Free
block of order kval_m at offset 0 seeds the top list. -/
def buddy_init (pool : BuddyPool) (size : Nat) (mmapFails : Bool) : BuddyPool :=
  let kval_m :=
    if size = 0 then DEFAULT_K
    else
      let k := btok size
      let k2 := if k < MIN_K then MIN_K else k
      if MAX_K ≤ k2 then MAX_K - 1 else k2
  let numbytes := 2 ^ kval_m
  if mmapFails then { pool with kval_m := kval_m, numbytes := numbytes, base := false }
  else
    { kval_m := kval_m
      numbytes := numbytes
      base := true
      avail := (List.replicate MAX_K ([] : List Nat)).set kval_m [0]
      mem := hwrite [] 0 ⟨BLOCK_AVAIL, kval_m⟩
      data := [] }

/-- buddy_destroy of lab.c: a NULL pool or a pool whose base is already
the NULL sentinel is left untouched; otherwise the mapping is released
and base is set to the NULL sentinel. -/
def buddy_destroy (pool : Option BuddyPool) : Option BuddyPool :=
  match pool with
  | none => none
  | some p => if p.base = false then some p else some { p with base := false }

/-- A pool with no backing memory, used as the uninitialised input that C
callers pass to buddy_init. -/
def emptyPool : BuddyPool :=
  { kval_m := 0, numbytes := 0, base := false, avail := [], mem := [], data := [] }

/-- The concrete arena used by the scenario theorems: buddy_init with a
one-byte request and a successful reservation, giving kval_m = MIN_K = 20
and a 2^20-byte arena. -/
def initial_pool : BuddyPool := buddy_init emptyPool 1 false

/-- The arena after allocating 100 bytes from initial_pool: block 0 is
Reserved at order 7 and orders 7..19 each hold one free buddy. -/
def pool_a : BuddyPool := (buddy_malloc_core initial_pool 100).2

/-- Total free bytes of a pool: the sum over all orders of list length
times block size, the measure used by the round-trip property. -/
def freeBytes (pool : BuddyPool) : Nat :=
  ((List.range MAX_K).map fun i => (pool.avail.getD i []).length * 2 ^ i).sum

/-- The disjointness relation between the byte range of a block at offset
b with order k and a reserved block r = (offset, order). -/
def blockDisjoint (b k : Nat) (r : Nat × Nat) : Prop :=
  b + 2 ^ k ≤ r.1 ∨ r.1 + 2 ^ r.2 ≤ b

instance (b k : Nat) (r : Nat × Nat) : Decidable (blockDisjoint b k r) := by
  unfold blockDisjoint; infer_instance

/-- Well-formedness of a pool relative to a list R of currently-Reserved
blocks (offset, order): the arena size is 2^kval_m with kval_m inside the
order table, and every block on a free list of order i is 2^i-aligned,
lies inside the arena, and is disjoint from every reserved block. -/
def WF (pool : BuddyPool) (R : List (Nat × Nat)) : Prop :=
  pool.numbytes = 2 ^ pool.kval_m ∧ pool.kval_m < MAX_K ∧
    ∀ i < MAX_K, ∀ b ∈ pool.avail.getD i [],
      2 ^ i ∣ b ∧ b + 2 ^ i ≤ pool.numbytes ∧ ∀ r ∈ R, blockDisjoint b i r

instance (pool : BuddyPool) (R : List (Nat × Nat)) : Decidable (WF pool R) := by
  unfold WF; infer_instance

theorem hread_hwrite_self (m : List (Nat × Avail)) (off : Nat) (h : Avail) :
    hread (hwrite m off h) off = h := by
  simp [hread, hwrite, List.lookup]

theorem hread_hwrite_ne (m : List (Nat × Avail)) (off off' : Nat) (h : Avail)
    (hne : off' ≠ off) : hread (hwrite m off h) off' = hread m off' := by
  have hb : (off' == off) = false := beq_eq_false_iff_ne.mpr hne
  simp [hread, hwrite, List.lookup, hb]

theorem bread_bwrite_self (d : List (Nat × Nat)) (off v : Nat) :
    bread (bwrite d off v) off = v := by
  simp [bread, bwrite, List.lookup]

theorem bread_bwrite_ne (d : List (Nat × Nat)) (off off' v : Nat)
    (hne : off' ≠ off) : bread (bwrite d off v) off' = bread d off' := by
  have hb : (off' == off) = false := beq_eq_false_iff_ne.mpr hne
  simp [bread, bwrite, List.lookup, hb]

theorem getD_set_self {α : Type} (l : List α) (i : Nat) (x d : α) (h : i < l.length) :
    (l.set i x).getD i d = x := by
  induction l generalizing i with
  | nil => simp at h
  | cons a t ih =>
    cases i with
    | zero => rfl
    | succ j => simpa using ih j (by simpa using h)

theorem getD_set_ne {α : Type} (l : List α) (i j : Nat) (x d : α) (h : i ≠ j) :
    (l.set i x).getD j d = l.getD j d := by
  induction l generalizing i j with
  | nil => simp [List.set]
  | cons a t ih =>
    cases i with
    | zero => cases j with
      | zero => exact absurd rfl h
      | succ j' => rfl
    | succ i' => cases j with
      | zero => rfl
      | succ j' => simpa using ih i' j' fun hc => h (by rw [hc])

theorem getD_replicate {α : Type} (n i : Nat) (a d : α) (h : i < n) :
    (List.replicate n a).getD i d = a := by
  induction n generalizing i with
  | zero => omega
  | succ n ih =>
    cases i with
    | zero => rfl
    | succ j => simpa [List.replicate] using ih j (by omega)

theorem shiftLoop_eq_log2 (fuel t a : Nat) (hf : Nat.log2 t ≤ fuel) :
    shiftLoop fuel t a = a + Nat.log2 t := by
  induction fuel generalizing t a with
  | zero =>
    have h0 : Nat.log2 t = 0 := Nat.le_zero.mp hf
    simp [shiftLoop, h0]
  | succ fuel ih =>
    show (if t / 2 = 0 then a else shiftLoop fuel (t / 2) (a + 1)) = a + Nat.log2 t
    by_cases h2 : t / 2 = 0
    · have ht : t ≤ 1 := by omega
      interval_cases t <;> simp [h2, Nat.log2]
    · have ht2 : 2 ≤ t := by omega
      have hlog : Nat.log2 t = Nat.log2 (t / 2) + 1 := by
        rw [Nat.log2]; simp [ht2]
      rw [if_neg h2, ih (t / 2) (a + 1) (by omega)]
      omega

theorem log2_le_64 (n : Nat) (h : n < UINT64) : Nat.log2 n ≤ 64 := by
  rcases Nat.eq_zero_or_pos n with h0 | h0
  · simp [h0, Nat.log2]
  · have hlt : n < 2 ^ 64 := by simpa only [UINT64] using h
    have := (Nat.lt_pow_iff_log_lt one_lt_two (Nat.pos_iff_ne_zero.mp h0)).mp hlt
    rw [Nat.log2_eq_log_two]
    omega

theorem btok_clamped (s : Nat) (hs : s ≠ 0) :
    SMALLEST_K ≤ btok s ∧ btok s ≤ MAX_K - 1 := by
  simp only [btok, if_neg hs, SMALLEST_K, MAX_K]
  set X := shiftLoop 64 (((s + headerSize) % UINT64 + (UINT64 - 1)) % UINT64) 0 + 1 with hX
  by_cases h1 : X < 6
  · simp only [if_pos h1]
    norm_num
  · simp only [if_neg h1]
    by_cases h2 : 48 ≤ X
    · simp only [if_pos h2]
      omega
    · simp only [if_neg h2]
      omega

theorem btok_ge_size (s : Nat) (hs : 0 < s) (hcap : s + headerSize ≤ 2 ^ (MAX_K - 1)) :
    s + headerSize ≤ 2 ^ btok s := by
  have hs' : s ≠ 0 := hs.ne'
  have hcap24 : s + 24 ≤ 140737488355328 := by
    have h47 : (2 : Nat) ^ (MAX_K - 1) = 140737488355328 := by norm_num [MAX_K]
    rw [h47] at hcap
    simpa only [headerSize] using hcap
  have hU : UINT64 = 18446744073709551616 := by norm_num [UINT64]
  have hw : (s + headerSize) % UINT64 = s + 24 := by
    rw [hU]
    simp only [headerSize]
    omega
  have ht : (s + 24 + (UINT64 - 1)) % UINT64 = s + 23 := by
    rw [hU]
    omega
  have hsl : shiftLoop 64 (s + 23) 0 = Nat.log2 (s + 23) := by
    have h1 : s + 23 < UINT64 := by rw [hU]; omega
    have h2 := log2_le_64 (s + 23) h1
    have h3 := shiftLoop_eq_log2 64 (s + 23) 0 (by omega)
    omega
  have hlt : s + 23 < 2 ^ (Nat.log2 (s + 23) + 1) := by
    rw [Nat.log2_eq_log_two]
    exact Nat.lt_pow_succ_log_self one_lt_two _
  have hk47 : Nat.log2 (s + 23) + 1 ≤ 47 := by
    have h1 : Nat.log 2 (s + 23) < 47 := by
      rw [← Nat.lt_pow_iff_log_lt one_lt_two (by omega : s + 23 ≠ 0)]
      norm_num
      omega
    rw [Nat.log2_eq_log_two]
    omega
  simp only [btok, if_neg hs', hw, ht, hsl, SMALLEST_K, MAX_K]
  set k0 := Nat.log2 (s + 23) + 1 with hk0
  by_cases h6 : k0 < 6
  · simp only [if_pos h6]
    norm_num
    have hp : (2 : Nat) ^ k0 ≤ 2 ^ 5 := Nat.pow_le_pow_right (by norm_num) (by omega)
    have h32 : (2 : Nat) ^ 5 = 32 := by norm_num
    simp only [headerSize]
    omega
  · simp only [if_neg h6, if_neg (by omega : ¬ 48 ≤ k0)]
    simp only [headerSize]
    omega

theorem btok_pow (s k : Nat) (h6 : SMALLEST_K ≤ k) (h47 : k ≤ MAX_K - 1)
    (hs : s + headerSize = 2 ^ k) : btok s = k := by
  have h6' : 6 ≤ k := by simpa only [SMALLEST_K] using h6
  have h47' : k ≤ 47 := by simpa only [MAX_K] using h47
  have h64 : (64 : Nat) ≤ 2 ^ k :=
    calc (64 : Nat) = 2 ^ 6 := by norm_num
    _ ≤ 2 ^ k := Nat.pow_le_pow_right (by norm_num) h6'
  have hbig : (2 : Nat) ^ k ≤ 140737488355328 :=
    calc (2 : Nat) ^ k ≤ 2 ^ 47 := Nat.pow_le_pow_right (by norm_num) h47'
    _ = 140737488355328 := by norm_num
  have hs24 : s + 24 = 2 ^ k := by simpa only [headerSize] using hs
  have hs' : s ≠ 0 := by omega
  have hU : UINT64 = 18446744073709551616 := by norm_num [UINT64]
  have hw : (s + headerSize) % UINT64 = 2 ^ k := by
    rw [hU]
    simp only [headerSize]
    omega
  have ht : (2 ^ k + (UINT64 - 1)) % UINT64 = 2 ^ k - 1 := by
    rw [hU]
    omega
  have hlog : Nat.log2 (2 ^ k - 1) = k - 1 := by
    rw [Nat.log2_eq_log_two]
    apply Nat.log_eq_of_pow_le_of_lt_pow
    · have hk : k - 1 + 1 = k := by omega
      have hdouble : (2 : Nat) ^ k = 2 ^ (k - 1) * 2 := by
        rw [← pow_succ, hk]
      have hpos : (1 : Nat) ≤ 2 ^ (k - 1) := Nat.one_le_two_pow
      omega
    · have hk : k - 1 + 1 = k := by omega
      rw [hk]
      omega
  have hsl : shiftLoop 64 (2 ^ k - 1) 0 = k - 1 := by
    have h1 : 2 ^ k - 1 < UINT64 := by rw [hU]; omega
    have h2 := log2_le_64 (2 ^ k - 1) h1
    have h3 := shiftLoop_eq_log2 64 (2 ^ k - 1) 0 (by omega)
    omega
  simp only [btok, if_neg hs', hw, ht, hsl, SMALLEST_K, MAX_K]
  rw [if_neg (by omega : ¬ k - 1 + 1 < 6), if_neg (by omega : ¬ 48 ≤ k - 1 + 1)]
  omega

theorem btok_gt_of_big (m s : Nat) (hm : m < MAX_K - 1)
    (hno : s + headerSize < UINT64) (hbig : 2 ^ m < s) : m < btok s := by
  have hs' : s ≠ 0 := by
    have := Nat.one_le_two_pow (n := m)
    omega
  have hU : UINT64 = 18446744073709551616 := by norm_num [UINT64]
  have hno24 : s + 24 < 18446744073709551616 := by
    rw [hU] at hno
    simpa only [headerSize] using hno
  have hw : (s + headerSize) % UINT64 = s + 24 := by
    rw [hU]
    simp only [headerSize]
    omega
  have ht : (s + 24 + (UINT64 - 1)) % UINT64 = s + 23 := by
    rw [hU]
    omega
  have hsl : shiftLoop 64 (s + 23) 0 = Nat.log2 (s + 23) := by
    have h1 : s + 23 < UINT64 := by rw [hU]; omega
    have h2 := log2_le_64 (s + 23) h1
    have h3 := shiftLoop_eq_log2 64 (s + 23) 0 (by omega)
    omega
  have hlogm : m ≤ Nat.log 2 (s + 23) := by
    rw [← Nat.pow_le_iff_le_log one_lt_two (by omega : s + 23 ≠ 0)]
    omega
  have hlogm2 : m + 1 ≤ Nat.log2 (s + 23) + 1 := by
    rw [Nat.log2_eq_log_two]
    omega
  have hm47 : m < 47 := by simpa only [MAX_K] using hm
  simp only [btok, if_neg hs', hw, ht, hsl, SMALLEST_K, MAX_K]
  set k0 := Nat.log2 (s + 23) + 1 with hk0
  by_cases h6 : k0 < 6
  · simp only [if_pos h6, if_neg (by norm_num : ¬ (48 : Nat) ≤ 6)]
    omega
  · simp only [if_neg h6]
    by_cases h48 : 48 ≤ k0
    · simp only [if_pos h48]
      omega
    · simp only [if_neg h48]
      omega

theorem malloc_eq_go (pool : BuddyPool) (s : Nat) (hs : s ≠ 0) :
    buddy_malloc_core pool s = malloc_go pool (btok s) := by
  simp [buddy_malloc_core, hs]

theorem malloc_go_none (pool : BuddyPool) (k : Nat)
    (h : (malloc_go pool k).1 = none) : malloc_go pool k = (none, pool) := by
  unfold malloc_go at h ⊢
  split
  · rfl
  · split
    · rfl
    · split
      · rfl
      · exfalso
        rename_i hlt x1 i hfind x2 block rest hl
        rw [if_neg hlt, hfind] at h
        simp only [hl] at h
        simp at h

theorem malloc_core_none (pool : BuddyPool) (s : Nat)
    (h : (buddy_malloc_core pool s).1 = none) :
    buddy_malloc_core pool s = (none, pool) := by
  by_cases hs : s = 0
  · simp [buddy_malloc_core, hs]
  · rw [malloc_eq_go pool s hs] at h ⊢
    exact malloc_go_none pool (btok s) h

theorem malloc_go_data (pool : BuddyPool) (k : Nat) :
    (malloc_go pool k).2.data = pool.data := by
  unfold malloc_go
  split
  · rfl
  · split
    · rfl
    · split
      · rfl
      · rfl

theorem malloc_core_data (pool : BuddyPool) (s : Nat) :
    (buddy_malloc_core pool s).2.data = pool.data := by
  by_cases hs : s = 0
  · simp [buddy_malloc_core, hs]
  · rw [malloc_eq_go pool s hs]
    exact malloc_go_data pool (btok s)

theorem free_core_data (pool : BuddyPool) (ptr : Nat) :
    (buddy_free_core pool ptr).data = pool.data := rfl

theorem free_core_kval_m (pool : BuddyPool) (ptr : Nat) :
    (buddy_free_core pool ptr).kval_m = pool.kval_m := rfl

theorem xor_two_pow_lt (b j m : Nat) (hb : b < 2 ^ m) (hj : j < m) :
    b ^^^ 2 ^ j < 2 ^ m :=
  Nat.xor_lt_two_pow hb (Nat.pow_lt_pow_right (by norm_num) hj)

theorem bread_memcpy (d : List (Nat × Nat)) (dst src n j : Nat) (hj : j < n) :
    bread (memcpyBytes d dst src n) (dst + j) = bread d (src + j) := by
  induction n with
  | zero => omega
  | succ n ih =>
    show bread (bwrite (memcpyBytes d dst src n) (dst + n) (bread d (src + n))) (dst + j) = _
    rcases Nat.lt_or_ge j n with h | h
    · rw [bread_bwrite_ne _ _ _ _ (by omega)]
      exact ih h
    · have hjn : j = n := by omega
      subst hjn
      exact bread_bwrite_self _ _ _

theorem coalesceLoop_spec (m : Nat) :
    ∀ (fuel : Nat) (mem : List (Nat × Avail)) (avail : List (List Nat)) (block k : Nat),
      m ≤ k + fuel → k ≤ m → block < 2 ^ m →
      hread mem block = ⟨BLOCK_AVAIL, k⟩ →
      (coalesceLoop fuel mem avail block k m).2.2.1 ≤ block ∧
      (coalesceLoop fuel mem avail block k m).2.2.1 < 2 ^ m ∧
      k ≤ (coalesceLoop fuel mem avail block k m).2.2.2 ∧
      (coalesceLoop fuel mem avail block k m).2.2.2 ≤ m ∧
      hread (coalesceLoop fuel mem avail block k m).1
          (coalesceLoop fuel mem avail block k m).2.2.1 =
        ⟨BLOCK_AVAIL, (coalesceLoop fuel mem avail block k m).2.2.2⟩ ∧
      (coalesceLoop fuel mem avail block k m).2.1.length = avail.length ∧
      ((coalesceLoop fuel mem avail block k m).2.2.2 < m →
        ¬((hread (coalesceLoop fuel mem avail block k m).1
              ((coalesceLoop fuel mem avail block k m).2.2.1 ^^^
                2 ^ (coalesceLoop fuel mem avail block k m).2.2.2)).tag = BLOCK_AVAIL ∧
          (hread (coalesceLoop fuel mem avail block k m).1
              ((coalesceLoop fuel mem avail block k m).2.2.1 ^^^
                2 ^ (coalesceLoop fuel mem avail block k m).2.2.2)).kval =
            (coalesceLoop fuel mem avail block k m).2.2.2)) := by
  intro fuel
  induction fuel with
  | zero =>
    intro mem avail block k hfuel hk hb hh
    have hkm : k = m := by omega
    simp only [coalesceLoop]
    exact ⟨le_rfl, hb, le_rfl, hk, hh, by trivial, by omega⟩
  | succ fuel ih =>
    intro mem avail block k hfuel hk hb hh
    have hbc : buddy_calc mem block = block ^^^ 2 ^ k := by rw [buddy_calc, hh]
    by_cases hkm : k < m
    · simp only [coalesceLoop, if_pos hkm, hbc]
      by_cases hc : (hread mem (block ^^^ 2 ^ k)).tag = BLOCK_AVAIL ∧
          (hread mem (block ^^^ 2 ^ k)).kval = k
      · rw [if_pos hc]
        set buddy := block ^^^ 2 ^ k with hbud
        set block2 := min block buddy with hblock2
        set avail2 := avail.set k ((avail.getD k []).erase buddy) with havail2
        set mem2 := hwrite mem block2 ⟨(hread mem block2).tag, k + 1⟩ with hmem2
        have hb2 : block2 ≤ block := min_le_left _ _
        have hb2' : block2 < 2 ^ m := lt_of_le_of_lt hb2 hb
        have htag : (hread mem block2).tag = BLOCK_AVAIL := by
          by_cases hbb : block ≤ buddy
          · rw [hblock2, min_eq_left hbb, hh]
          · rw [hblock2, min_eq_right (le_of_not_le hbb)]
            exact hc.1
        have hh2 : hread mem2 block2 = ⟨BLOCK_AVAIL, k + 1⟩ := by
          rw [hmem2, hread_hwrite_self, htag]
        have := ih mem2 avail2 block2 (k + 1) (by omega) (by omega) hb2' hh2
        refine ⟨le_trans this.1 hb2, this.2.1, by omega, this.2.2.2.1, this.2.2.2.2.1,
          ?_, this.2.2.2.2.2.2⟩
        rw [this.2.2.2.2.2.1, havail2, List.length_set]
      · rw [if_neg hc]
        exact ⟨le_rfl, hb, le_rfl, hk, hh, by trivial, fun _ => hc⟩
    · simp only [coalesceLoop, if_neg hkm]
      exact ⟨le_rfl, hb, le_rfl, hk, hh, by trivial, by omega⟩

theorem init_avail_facts (K : Nat) (hK : K < MAX_K) :
    (((List.replicate MAX_K ([] : List Nat)).set K [0]).getD K [] = [0]) ∧
    ∀ i, i < MAX_K → i ≠ K →
      ((List.replicate MAX_K ([] : List Nat)).set K [0]).getD i [] = [] := by
  constructor
  · apply getD_set_self
    rw [List.length_replicate]
    exact hK
  · intro i hi hne
    rw [getD_set_ne _ _ _ _ _ (Ne.symm hne), getD_replicate _ _ _ _ hi]

/-- Claim C3: order-calculator exactness at power-of-two boundaries.  For
every requested size s such that s + headerSize is exactly 2^k, with k
between SMALLEST_K and MAX_K - 1, btok s returns k, not k + 1. -/
theorem C3_btok_exact (s k : Nat) (h1 : SMALLEST_K ≤ k) (h2 : k ≤ MAX_K - 1)
    (hs : s + headerSize = 2 ^ k) : btok s = k :=
  btok_pow s k h1 h2 hs

theorem C3_btok_exact_w :
    SMALLEST_K ≤ 10 ∧ 10 ≤ MAX_K - 1 ∧ 1000 + headerSize = 2 ^ 10 ∧ btok 1000 = 10 :=
  ⟨by decide, by decide, by decide, C3_btok_exact 1000 10 (by decide) (by decide) (by decide)⟩

/-- Claim C8, counterexample: btok applied to 0 returns 0 via its early
return, bypassing the clamp, so the result is not at least the minimum
order SMALLEST_K. -/
theorem C8_counterexample : ¬ SMALLEST_K ≤ btok 0 := by decide

/-- Claim C8, amended: for every nonzero requested size the order
calculator's result is clamped to at least SMALLEST_K and at most
MAX_K - 1; btok 0 instead returns 0 directly (buddy_malloc rejects size
0 before consulting btok). -/
theorem C8_clamp (s : Nat) (hs : s ≠ 0) :
    SMALLEST_K ≤ btok s ∧ btok s ≤ MAX_K - 1 :=
  btok_clamped s hs

theorem C8_clamp_w :
    (5 : Nat) ≠ 0 ∧ SMALLEST_K ≤ btok 5 ∧ btok 5 ≤ MAX_K - 1 :=
  ⟨by decide, C8_clamp 5 (by decide)⟩

/-- Claim C9: null-argument handling at the public interface.  A NULL
pool makes buddy_malloc return the null result, and buddy_free with a
NULL pool or a NULL pointer returns immediately with the arena state
unchanged. -/
theorem C9_null_args (s : Nat) (ptr : Option Nat) (p : BuddyPool) :
    buddy_malloc none s = (none, none) ∧ buddy_free none ptr = none ∧
    buddy_free (some p) none = some p :=
  ⟨rfl, rfl, rfl⟩

/-- Claim C10: buddy_destroy clears the base sentinel, destroying twice
equals destroying once, and destroying a pool whose base is already the
null sentinel (never initialised or failed reservation) is a no-op. -/
theorem C10_destroy (x : Option BuddyPool) (q p : BuddyPool) (hp : p.base = false) :
    buddy_destroy (some q) = some { q with base := false } ∧
    buddy_destroy (buddy_destroy x) = buddy_destroy x ∧
    buddy_destroy (some p) = some p := by
  refine ⟨?_, ?_, ?_⟩
  · by_cases hq : q.base = false
    · have heta : q = { q with base := false } := by
        cases q
        simp_all
      simp [buddy_destroy, hq, ← heta]
    · simp [buddy_destroy, hq]
  · cases x with
    | none => rfl
    | some q' =>
      by_cases hq : q'.base = false
      · simp [buddy_destroy, hq]
      · simp [buddy_destroy, hq]
  · simp [buddy_destroy, hp]

theorem C10_destroy_w :
    emptyPool.base = false ∧
    (buddy_destroy (some initial_pool) = some { initial_pool with base := false } ∧
     buddy_destroy (buddy_destroy (some initial_pool)) = buddy_destroy (some initial_pool) ∧
     buddy_destroy (some emptyPool) = some emptyPool) :=
  ⟨rfl, C10_destroy (some initial_pool) initial_pool emptyPool rfl⟩

/-- Claim C6: every successful initialisation gives an arena of exactly
2^kval_m bytes, all free lists empty (self-linked sentinels) except the
top order's, which holds exactly one Free block of order kval_m at
offset 0 covering the whole arena; a failed reservation is signalled by
clearing the base sentinel, leaving the arena not ready. -/
theorem C6_init (pool : BuddyPool) (size : Nat) :
    (buddy_init pool size false).base = true ∧
    (buddy_init pool size false).numbytes = 2 ^ (buddy_init pool size false).kval_m ∧
    (∀ i, i < MAX_K → i ≠ (buddy_init pool size false).kval_m →
      (buddy_init pool size false).avail.getD i [] = []) ∧
    (buddy_init pool size false).avail.getD (buddy_init pool size false).kval_m [] = [0] ∧
    hread (buddy_init pool size false).mem 0 =
      ⟨BLOCK_AVAIL, (buddy_init pool size false).kval_m⟩ ∧
    (buddy_init pool size true).base = false := by
  have hKeq : (buddy_init pool size false).kval_m =
      (if size = 0 then DEFAULT_K
       else if MAX_K ≤ (if btok size < MIN_K then MIN_K else btok size) then MAX_K - 1
       else if btok size < MIN_K then MIN_K else btok size) := rfl
  have hKlt : (buddy_init pool size false).kval_m < MAX_K := by
    rw [hKeq]
    by_cases h0 : size = 0
    · simp only [if_pos h0, DEFAULT_K, MAX_K]
      omega
    · simp only [if_neg h0]
      have hb := btok_clamped size h0
      simp only [SMALLEST_K, MAX_K] at hb
      simp only [MIN_K, MAX_K]
      by_cases hm : btok size < 20
      · simp only [if_pos hm]
        by_cases h48 : (48 : Nat) ≤ 20
        · omega
        · simp only [if_neg h48]
          omega
      · simp only [if_neg hm]
        by_cases h48 : 48 ≤ btok size
        · simp only [if_pos h48]
          omega
        · simp only [if_neg h48]
          omega
  have havail : (buddy_init pool size false).avail =
      (List.replicate MAX_K ([] : List Nat)).set (buddy_init pool size false).kval_m [0] := rfl
  have hmem : (buddy_init pool size false).mem =
      hwrite [] 0 ⟨BLOCK_AVAIL, (buddy_init pool size false).kval_m⟩ := rfl
  have hfacts := init_avail_facts _ hKlt
  refine ⟨rfl, rfl, ?_, ?_, ?_, rfl⟩
  · intro i hi hne
    rw [havail]
    exact hfacts.2 i hi hne
  · rw [havail]
    exact hfacts.1
  · rw [hmem]
    exact hread_hwrite_self _ _ _

theorem C6_init_w :
    (buddy_init emptyPool 0 false).base = true ∧
    (buddy_init emptyPool 0 false).numbytes = 2 ^ (buddy_init emptyPool 0 false).kval_m ∧
    (∀ i, i < MAX_K → i ≠ (buddy_init emptyPool 0 false).kval_m →
      (buddy_init emptyPool 0 false).avail.getD i [] = []) ∧
    (buddy_init emptyPool 0 false).avail.getD (buddy_init emptyPool 0 false).kval_m [] = [0] ∧
    hread (buddy_init emptyPool 0 false).mem 0 =
      ⟨BLOCK_AVAIL, (buddy_init emptyPool 0 false).kval_m⟩ ∧
    (buddy_init emptyPool 0 true).base = false :=
  C6_init emptyPool 0

/-- Claim C4, counterexample: a request for more than the arena's total
capacity need not fail.  On the 2^20-byte arena, requesting 2^64 - 23
bytes (more than the capacity) makes the size_t addition of headerSize
in btok wrap to 1, the computed order clamps up to SMALLEST_K, and
buddy_malloc succeeds instead of returning the null result. -/
theorem C4_counterexample :
    initial_pool.numbytes < UINT64 - 23 ∧
    (buddy_malloc_core initial_pool (UINT64 - 23)).1 ≠ none := by decide

/-- Claim C4, amended: whenever the computed order btok(size) exceeds
the arena's kval_m, buddy_malloc fails with the null result and leaves
the pool - hence every free list - unchanged; and a request larger than
the capacity is guaranteed to have computed order above kval_m provided
kval_m < MAX_K - 1 and size + headerSize does not wrap the size_t type
(btok's top clamp and size_t wraparound otherwise defeat the bound). -/
theorem C4_oom (pool : BuddyPool) (s : Nat)
    (hnum : pool.numbytes = 2 ^ pool.kval_m)
    (hm : pool.kval_m < MAX_K - 1)
    (hno : s + headerSize < UINT64)
    (hbig : pool.numbytes < s) :
    (∀ t, pool.kval_m < btok t → buddy_malloc_core pool t = (none, pool)) ∧
    pool.kval_m < btok s ∧
    buddy_malloc_core pool s = (none, pool) := by
  have hfail : ∀ t, pool.kval_m < btok t → buddy_malloc_core pool t = (none, pool) := by
    intro t ht
    by_cases h0 : t = 0
    · simp [buddy_malloc_core, h0]
    · rw [malloc_eq_go pool t h0]
      unfold malloc_go
      rw [if_pos ht]
  have hgt : pool.kval_m < btok s := by
    rw [hnum] at hbig
    exact btok_gt_of_big _ _ hm hno hbig
  exact ⟨hfail, hgt, hfail s hgt⟩

theorem C4_oom_w :
    initial_pool.numbytes = 2 ^ initial_pool.kval_m ∧
    initial_pool.kval_m < MAX_K - 1 ∧
    2 ^ 20 + 1 + headerSize < UINT64 ∧
    initial_pool.numbytes < 2 ^ 20 + 1 ∧
    (initial_pool.kval_m < btok (2 ^ 20 + 1) ∧
      buddy_malloc_core initial_pool (2 ^ 20 + 1) = (none, initial_pool)) :=
  ⟨by decide, by decide, by decide, by decide,
    (C4_oom initial_pool (2 ^ 20 + 1) (by decide) (by decide) (by decide) (by decide)).2⟩

/-- Claim C1, counterexample: a requested size s with 0 < s ≤ capacity
need not get a pointer at all.  On the fresh 2^20-byte arena, requesting
exactly the capacity fails (header overhead pushes the computed order
past kval_m), so buddy_malloc returns the null result. -/
theorem C1_counterexample :
    0 < 2 ^ 20 ∧ 2 ^ 20 ≤ initial_pool.numbytes ∧
    (buddy_malloc_core initial_pool (2 ^ 20)).1 = none := by decide

/-- Claim C1, amended: in any well-formed arena state, for every size s
with 0 < s and s + headerSize ≤ 2^(MAX_K-1), whenever buddy_malloc
returns a pointer p, the underlying block p - headerSize is exactly
2^k bytes (header plus payload) for the computed order k = btok s, holds
at least s usable bytes, is 2^k-aligned relative to the arena base, lies
inside the arena, and is disjoint from every currently-Reserved block.
(The original range 0 < s ≤ capacity is wrong: requests near the
capacity fail because of header overhead, and success anyway requires a
free block of sufficient order.) -/
theorem C1_alloc_props (pool : BuddyPool) (R : List (Nat × Nat)) (s p : Nat)
    (pool' : BuddyPool)
    (hwf : WF pool R) (hs : 0 < s) (hcap : s + headerSize ≤ 2 ^ (MAX_K - 1))
    (hm : buddy_malloc_core pool s = (some p, pool')) :
    s + headerSize ≤ 2 ^ btok s ∧
    2 ^ btok s ∣ (p - headerSize) ∧
    (p - headerSize) + 2 ^ btok s ≤ pool.numbytes ∧
    hread pool'.mem (p - headerSize) = ⟨BLOCK_RESERVED, btok s⟩ ∧
    ∀ r ∈ R, blockDisjoint (p - headerSize) (btok s) r := by
  obtain ⟨hnum, hmk, hfree⟩ := hwf
  have hs' : s ≠ 0 := hs.ne'
  rw [malloc_eq_go pool s hs'] at hm
  unfold malloc_go at hm
  by_cases hlt : pool.kval_m < btok s
  · rw [if_pos hlt] at hm
    simp at hm
  · rw [if_neg hlt] at hm
    cases hf : findAvail pool (btok s) with
    | none =>
      rw [hf] at hm
      simp at hm
    | some i =>
      rw [hf] at hm
      cases hl : pool.avail.getD i [] with
      | nil =>
        simp only [hl] at hm
        simp at hm
      | cons block rest =>
        simp only [hl, Prod.mk.injEq, Option.some.injEq] at hm
        obtain ⟨hp1, hp2⟩ := hm
        have hiR : i ∈ List.range' (btok s) (pool.kval_m + 1 - btok s) :=
          List.mem_of_find?_eq_some hf
        have hib := List.mem_range'_1.mp hiR
        have hik : i ≤ pool.kval_m := by omega
        have hblk : block ∈ pool.avail.getD i [] := by
          rw [hl]
          exact List.mem_cons_self _ _
        have hiMK : i < MAX_K := by omega
        obtain ⟨hdvd, hle, hdisj⟩ := hfree i hiMK block hblk
        have hk_le_i : btok s ≤ i := hib.1
        have hd : 2 ^ btok s ∣ block := dvd_trans (pow_dvd_pow 2 hk_le_i) hdvd
        have hpow_le : (2 : Nat) ^ btok s ≤ 2 ^ i := Nat.pow_le_pow_right (by norm_num) hk_le_i
        have hps : p - headerSize = block := by omega
        refine ⟨btok_ge_size s hs hcap, ?_, ?_, ?_, ?_⟩
        · rw [hps]
          exact hd
        · rw [hps]
          omega
        · rw [hps, ← hp2]
          exact hread_hwrite_self _ _ _
        · intro r hr
          have hdr := hdisj r hr
          rw [hps]
          unfold blockDisjoint at hdr ⊢
          rcases hdr with h1 | h1
          · left
            omega
          · right
            exact h1

theorem C1_alloc_props_w :
    WF pool_a [(0, 7)] ∧ 0 < 50 ∧ 50 + headerSize ≤ 2 ^ (MAX_K - 1) ∧
    buddy_malloc_core pool_a 50 = (some 152, (buddy_malloc_core pool_a 50).2) ∧
    (50 + headerSize ≤ 2 ^ btok 50 ∧
      2 ^ btok 50 ∣ (152 - headerSize) ∧
      (152 - headerSize) + 2 ^ btok 50 ≤ pool_a.numbytes ∧
      hread ((buddy_malloc_core pool_a 50).2).mem (152 - headerSize) =
        ⟨BLOCK_RESERVED, btok 50⟩ ∧
      ∀ r ∈ [((0 : Nat), (7 : Nat))], blockDisjoint (152 - headerSize) (btok 50) r) :=
  ⟨by decide, by decide, by decide, by decide,
    C1_alloc_props pool_a [(0, 7)] 50 152 (buddy_malloc_core pool_a 50).2
      (by decide) (by decide) (by decide) (by decide)⟩

/-- Claim C2: buddy_free marks the freed block Free and coalesces while
k < kval_m, computing each buddy by XOR-ing the arena-relative offset
with 2^k; it stops exactly when the buddy's header is not Free or its
recorded order differs from k, otherwise the buddy is unlinked, the
lower-addressed block survives with order k+1, and the loop continues;
the final block is inserted at the head of the free list for its final
order, and every buddy offset computed from an in-arena block stays
inside [0, numbytes). -/
theorem C2_free_coalesce (pool : BuddyPool) (ptr block k : Nat)
    (hptr : ptr = block + headerSize)
    (hk : (hread pool.mem block).kval = k)
    (hkm : k ≤ pool.kval_m)
    (hb : block < 2 ^ pool.kval_m)
    (hnum : pool.numbytes = 2 ^ pool.kval_m)
    (hlen : pool.avail.length = MAX_K)
    (hmk : pool.kval_m < MAX_K) :
    ∃ mem2 avail2 b2 k2,
      coalesceLoop (pool.kval_m - k) (hwrite pool.mem block ⟨BLOCK_AVAIL, k⟩)
          pool.avail block k pool.kval_m = (mem2, avail2, b2, k2) ∧
      b2 ≤ block ∧ b2 < pool.numbytes ∧ k ≤ k2 ∧ k2 ≤ pool.kval_m ∧
      hread mem2 b2 = ⟨BLOCK_AVAIL, k2⟩ ∧
      (k2 < pool.kval_m →
        ¬((hread mem2 (b2 ^^^ 2 ^ k2)).tag = BLOCK_AVAIL ∧
          (hread mem2 (b2 ^^^ 2 ^ k2)).kval = k2)) ∧
      buddy_free_core pool ptr =
        { pool with mem := mem2, avail := avail2.set k2 (b2 :: avail2.getD k2 []) } ∧
      (buddy_free_core pool ptr).avail.getD k2 [] = b2 :: avail2.getD k2 [] ∧
      (∀ b j, b < pool.numbytes → j < pool.kval_m → b ^^^ 2 ^ j < pool.numbytes) := by
  have hh1 : hread (hwrite pool.mem block ⟨BLOCK_AVAIL, k⟩) block = ⟨BLOCK_AVAIL, k⟩ :=
    hread_hwrite_self _ _ _
  have hsp := coalesceLoop_spec pool.kval_m (pool.kval_m - k)
    (hwrite pool.mem block ⟨BLOCK_AVAIL, k⟩) pool.avail block k (by omega) hkm hb hh1
  set r := coalesceLoop (pool.kval_m - k) (hwrite pool.mem block ⟨BLOCK_AVAIL, k⟩)
    pool.avail block k pool.kval_m with hr
  have hpb : ptr - headerSize = block := by omega
  have hfree : buddy_free_core pool ptr =
      { pool with mem := r.1, avail := r.2.1.set r.2.2.2 (r.2.2.1 :: r.2.1.getD r.2.2.2 []) } := by
    unfold buddy_free_core
    rw [hpb]
    simp only [hk]
  refine ⟨r.1, r.2.1, r.2.2.1, r.2.2.2, rfl, hsp.1, ?_, hsp.2.2.1, hsp.2.2.2.1,
    hsp.2.2.2.2.1, hsp.2.2.2.2.2.2, hfree, ?_, ?_⟩
  · rw [hnum]
    exact hsp.2.1
  · rw [hfree]
    apply getD_set_self
    rw [hsp.2.2.2.2.2.1, hlen]
    omega
  · intro b j hbn hj
    rw [hnum] at hbn ⊢
    exact xor_two_pow_lt b j pool.kval_m hbn hj

theorem C2_free_coalesce_w :
    (24 = 0 + headerSize ∧ (hread pool_a.mem 0).kval = 7 ∧ 7 ≤ pool_a.kval_m ∧
      0 < 2 ^ pool_a.kval_m ∧ pool_a.numbytes = 2 ^ pool_a.kval_m ∧
      pool_a.avail.length = MAX_K ∧ pool_a.kval_m < MAX_K) ∧
    (∃ mem2 avail2 b2 k2,
      coalesceLoop (pool_a.kval_m - 7) (hwrite pool_a.mem 0 ⟨BLOCK_AVAIL, 7⟩)
          pool_a.avail 0 7 pool_a.kval_m = (mem2, avail2, b2, k2) ∧
      b2 ≤ 0 ∧ b2 < pool_a.numbytes ∧ 7 ≤ k2 ∧ k2 ≤ pool_a.kval_m ∧
      hread mem2 b2 = ⟨BLOCK_AVAIL, k2⟩ ∧
      (k2 < pool_a.kval_m →
        ¬((hread mem2 (b2 ^^^ 2 ^ k2)).tag = BLOCK_AVAIL ∧
          (hread mem2 (b2 ^^^ 2 ^ k2)).kval = k2)) ∧
      buddy_free_core pool_a 24 =
        { pool_a with mem := mem2, avail := avail2.set k2 (b2 :: avail2.getD k2 []) } ∧
      (buddy_free_core pool_a 24).avail.getD k2 [] = b2 :: avail2.getD k2 [] ∧
      (∀ b j, b < pool_a.numbytes → j < pool_a.kval_m → b ^^^ 2 ^ j < pool_a.numbytes)) :=
  ⟨⟨by decide, by decide, by decide, by decide, by decide, by decide, by decide⟩,
    C2_free_coalesce pool_a 24 0 7 (by decide) (by decide) (by decide) (by decide)
      (by decide) (by decide) (by decide)⟩

theorem usable_size_eq (kv : Nat) (h6 : SMALLEST_K ≤ kv) (h47 : kv ≤ MAX_K - 1) :
    (2 ^ kv % UINT64 + (UINT64 - headerSize)) % UINT64 = 2 ^ kv - headerSize := by
  have h6' : 6 ≤ kv := by simpa only [SMALLEST_K] using h6
  have h47' : kv ≤ 47 := by simpa only [MAX_K] using h47
  have h64 : (64 : Nat) ≤ 2 ^ kv :=
    calc (64 : Nat) = 2 ^ 6 := by norm_num
    _ ≤ 2 ^ kv := Nat.pow_le_pow_right (by norm_num) h6'
  have hbig : (2 : Nat) ^ kv ≤ 140737488355328 :=
    calc (2 : Nat) ^ kv ≤ 2 ^ 47 := Nat.pow_le_pow_right (by norm_num) h47'
    _ = 140737488355328 := by norm_num
  have hU : UINT64 = 18446744073709551616 := by norm_num [UINT64]
  rw [hU]
  simp only [headerSize]
  omega

/-- Claim C5: resizing a pointer to a size that still fits the current
block (2^order - headerSize at least the new size) returns the same
pointer with the pool unchanged; when the new size does not fit, realloc
allocates a new block, copies min(old usable size, new size) bytes from
old to new, frees the old block and returns the new pointer; and if that
allocation fails, it returns the null result with the pool untouched. -/
theorem C5_realloc (pool : BuddyPool) (p kv : Nat)
    (hkv : (hread pool.mem (p - headerSize)).kval = kv)
    (h6 : SMALLEST_K ≤ kv) (h47 : kv ≤ MAX_K - 1) :
    (∀ size, 0 < size → size ≤ 2 ^ kv - headerSize →
      buddy_realloc_core pool (some p) size = (some p, pool)) ∧
    (∀ size, 2 ^ kv - headerSize < size → (buddy_malloc_core pool size).1 = none →
      buddy_realloc_core pool (some p) size = (none, pool)) ∧
    (∀ size np, 2 ^ kv - headerSize < size → (buddy_malloc_core pool size).1 = some np →
      (buddy_realloc_core pool (some p) size).1 = some np ∧
      ∀ j, j < min (2 ^ kv - headerSize) size →
        bread (buddy_realloc_core pool (some p) size).2.data (np + j) =
          bread pool.data (p + j)) := by
  have h6' : 6 ≤ kv := by simpa only [SMALLEST_K] using h6
  have h64 : (64 : Nat) ≤ 2 ^ kv :=
    calc (64 : Nat) = 2 ^ 6 := by norm_num
    _ ≤ 2 ^ kv := Nat.pow_le_pow_right (by norm_num) h6'
  have h40 : 40 ≤ 2 ^ kv - headerSize := by
    simp only [headerSize]
    omega
  have hold : (2 ^ (hread pool.mem (p - headerSize)).kval % UINT64 +
      (UINT64 - headerSize)) % UINT64 = 2 ^ kv - headerSize := by
    rw [hkv]
    exact usable_size_eq kv h6 h47
  refine ⟨?_, ?_, ?_⟩
  · intro size hs hle
    simp only [buddy_realloc_core]
    rw [if_neg hs.ne', hold, if_pos hle]
  · intro size hlt hnone
    simp only [buddy_realloc_core]
    rw [if_neg (by omega : ¬ size = 0), hold, if_neg (not_le.mpr hlt),
      malloc_core_none pool size hnone]
  · intro size np hlt hsome
    have hre : buddy_realloc_core pool (some p) size =
        (some np, buddy_free_core
          { (buddy_malloc_core pool size).2 with
            data := memcpyBytes (buddy_malloc_core pool size).2.data np p
              (2 ^ kv - headerSize) } p) := by
      simp only [buddy_realloc_core]
      rw [if_neg (by omega : ¬ size = 0), hold, if_neg (not_le.mpr hlt)]
      simp only [hsome]
    rw [hre]
    refine ⟨rfl, ?_⟩
    intro j hj
    rw [min_eq_left (Nat.le_of_lt hlt)] at hj
    show bread (memcpyBytes (buddy_malloc_core pool size).2.data np p
      (2 ^ kv - headerSize)) (np + j) = bread pool.data (p + j)
    rw [bread_memcpy _ _ _ _ _ hj, malloc_core_data]

theorem C5_realloc_w :
    ((hread pool_a.mem (24 - headerSize)).kval = 7 ∧ SMALLEST_K ≤ 7 ∧ 7 ≤ MAX_K - 1) ∧
    ((∀ size, 0 < size → size ≤ 2 ^ 7 - headerSize →
        buddy_realloc_core pool_a (some 24) size = (some 24, pool_a)) ∧
      (∀ size, 2 ^ 7 - headerSize < size → (buddy_malloc_core pool_a size).1 = none →
        buddy_realloc_core pool_a (some 24) size = (none, pool_a)) ∧
      (∀ size np, 2 ^ 7 - headerSize < size → (buddy_malloc_core pool_a size).1 = some np →
        (buddy_realloc_core pool_a (some 24) size).1 = some np ∧
        ∀ j, j < min (2 ^ 7 - headerSize) size →
          bread (buddy_realloc_core pool_a (some 24) size).2.data (np + j) =
            bread pool_a.data (24 + j))) :=
  ⟨⟨by decide, by decide, by decide⟩,
    C5_realloc pool_a 24 7 (by decide) (by decide) (by decide)⟩

/-- Claim C7: on the initialised arena, for every allocatable size s
(0 < s and computed order within the arena), allocating s, freeing the
returned pointer, and allocating s again yields blocks recorded at the
same order btok s both times, and the arena's total free byte count
after the free equals the count before the first allocation (no leak,
no double-count). -/
theorem C7_roundtrip (s : Nat) (hs : 0 < s) (hcap : btok s ≤ 20) :
    (buddy_malloc_core initial_pool s).1 ≠ none ∧
    (hread (buddy_malloc_core initial_pool s).2.mem
        ((buddy_malloc_core initial_pool s).1.getD 0 - headerSize)).kval = btok s ∧
    freeBytes (buddy_free_core (buddy_malloc_core initial_pool s).2
        ((buddy_malloc_core initial_pool s).1.getD 0)) = freeBytes initial_pool ∧
    (buddy_malloc_core (buddy_free_core (buddy_malloc_core initial_pool s).2
        ((buddy_malloc_core initial_pool s).1.getD 0)) s).1 ≠ none ∧
    (hread (buddy_malloc_core (buddy_free_core (buddy_malloc_core initial_pool s).2
          ((buddy_malloc_core initial_pool s).1.getD 0)) s).2.mem
        ((buddy_malloc_core (buddy_free_core (buddy_malloc_core initial_pool s).2
            ((buddy_malloc_core initial_pool s).1.getD 0)) s).1.getD 0 - headerSize)).kval =
      btok s := by
  have hs' : s ≠ 0 := hs.ne'
  have h6 := (btok_clamped s hs').1
  simp only [SMALLEST_K] at h6
  rw [malloc_eq_go initial_pool s hs']
  rw [malloc_eq_go _ s hs']
  obtain ⟨k, hk⟩ : ∃ k, btok s = k := ⟨_, rfl⟩
  rw [hk] at h6 hcap ⊢
  interval_cases k <;> decide

theorem C7_roundtrip_w :
    (0 < 100 ∧ btok 100 ≤ 20) ∧
    ((buddy_malloc_core initial_pool 100).1 ≠ none ∧
      (hread (buddy_malloc_core initial_pool 100).2.mem
          ((buddy_malloc_core initial_pool 100).1.getD 0 - headerSize)).kval = btok 100 ∧
      freeBytes (buddy_free_core (buddy_malloc_core initial_pool 100).2
          ((buddy_malloc_core initial_pool 100).1.getD 0)) = freeBytes initial_pool ∧
      (buddy_malloc_core (buddy_free_core (buddy_malloc_core initial_pool 100).2
          ((buddy_malloc_core initial_pool 100).1.getD 0)) 100).1 ≠ none ∧
      (hread (buddy_malloc_core (buddy_free_core (buddy_malloc_core initial_pool 100).2
            ((buddy_malloc_core initial_pool 100).1.getD 0)) 100).2.mem
          ((buddy_malloc_core (buddy_free_core (buddy_malloc_core initial_pool 100).2
              ((buddy_malloc_core initial_pool 100).1.getD 0)) 100).1.getD 0 -
            headerSize)).kval = btok 100) :=
  ⟨⟨by decide, by decide⟩, C7_roundtrip 100 (by decide) (by decide)⟩
